import Mathlib

/-!
Verification of the configuration resolution engine of `product-mono`
(`scripts2/configure.py` and `scripts/load_config.py`).

The engine is embedded shallowly:
* an environment snapshot is a partial map from variable name to value
  (`none` models an unset variable, mirroring `os.getenv`);
* YAML values are embedded as `YVal` (with mutual list/field types so
  that all functions are structurally recursive), and `pyStr`/`pyRepr`
  mirror Python's `str()`/`repr()` on the value shapes the scripts
  handle (string `repr` assumes the string has no quote or escape
  characters, which holds for every value used here);
* the regex `\$\x7b([^\x7d]+)\x7d|\x7b\$([^\x7d]+)\x7d` shared by
  `substitute_placeholders` and `extract_placeholder_vars` is embedded
  as the left-to-right scanner `scan`, fuelled by the input length (the
  scanner consumes at least one character per step, so the fuel never
  runs out on the initial call).
-/

namespace ProductMono

/-- Environment snapshot: variable name to value if set (`os.environ`). -/
abbrev Env := String → Option String

/-- Python `dict.get` on an insertion-ordered association list. -/
def aget? {α : Type} : List (String × α) → String → Option α
  | [], _ => none
  | (k', v) :: rest, k => if k' = k then some v else aget? rest k

/-- Python `d[k] = v`: update in place if the key exists, else append. -/
def dinsert {α : Type} : List (String × α) → String → α → List (String × α)
  | [], k, v => [(k, v)]
  | (k', v') :: rest, k, v =>
    if k' = k then (k, v) :: rest else (k', v') :: dinsert rest k v

mutual
/-- YAML values as the scripts receive them from `yaml.safe_load`. -/
inductive YVal : Type where
  | s (v : String)
  | i (n : Int)
  | b (v : Bool)
  | null
  | list (xs : YList)
  | dict (ps : YFields)
/-- A YAML sequence of values. -/
inductive YList : Type where
  | nil
  | cons (hd : YVal) (tl : YList)
/-- A YAML mapping, in insertion order. -/
inductive YFields : Type where
  | nil
  | cons (key : String) (val : YVal) (tl : YFields)
end

/-- Python `dict.get` on a YAML mapping. -/
def yget? : YFields → String → Option YVal
  | YFields.nil, _ => none
  | YFields.cons k' v rest, k => if k' = k then some v else yget? rest k

/-- Build a YAML sequence from a Lean list. -/
def YList.ofList : List YVal → YList
  | [] => YList.nil
  | x :: xs => YList.cons x (YList.ofList xs)

/-- Build a YAML mapping from a Lean association list. -/
def YFields.ofList : List (String × YVal) → YFields
  | [] => YFields.nil
  | (k, v) :: ps => YFields.cons k v (YFields.ofList ps)

mutual
/-- Python `repr`.  String `repr` is modelled for strings without quote
or escape characters. -/
def pyRepr : YVal → String
  | YVal.s v => "\x27" ++ v ++ "\x27"
  | YVal.i n => toString n
  | YVal.b true => "True"
  | YVal.b false => "False"
  | YVal.null => "None"
  | YVal.list xs => "[" ++ String.intercalate ", " (pyReprList xs) ++ "]"
  | YVal.dict ps => "\x7b" ++ String.intercalate ", " (pyReprFields ps) ++ "\x7d"
/-- `repr` of every element of a sequence. -/
def pyReprList : YList → List String
  | YList.nil => []
  | YList.cons x xs => pyRepr x :: pyReprList xs
/-- `repr` of every `key: value` pair of a mapping. -/
def pyReprFields : YFields → List String
  | YFields.nil => []
  | YFields.cons k v ps => ("\x27" ++ k ++ "\x27: " ++ pyRepr v) :: pyReprFields ps
end

/-- Python `str(v)`: the string itself for strings, `repr` otherwise
(none of the other value shapes define a separate `__str__`). -/
def pyStr : YVal → String
  | YVal.s v => v
  | v => pyRepr v

/-- One regex match attempt at the current position: a name is a nonempty
run of characters other than `\x7d`, terminated by `\x7d` (the regex
fragment `([^\x7d]+)\x7d`).  Returns the captured name and the remainder
after the closing delimiter. -/
def takeName (cs : List Char) : Option (List Char × List Char) :=
  let nm := cs.takeWhile (fun c => c != '\x7d')
  if nm.isEmpty then none
  else
    match cs.dropWhile (fun c => c != '\x7d') with
    | [] => none
    | _ :: tl => some (nm, tl)

/-- A piece of the scanned input: a literal character, a token matched as
`$\x7bNAME\x7d` (`tok1`), or a token matched as `\x7b$NAME\x7d` (`tok2`). -/
inductive Piece : Type where
  | lit (c : Char)
  | tok1 (name : List Char)
  | tok2 (name : List Char)

/-- Left-to-right scan of the placeholder regex over the input, fuelled:
at each position the first alternative `$\x7b...` is tried, then the
second `\x7b$...`; on failure the scan advances one character, exactly as
`re.finditer`/`re.sub` do. -/
def scanGo : Nat → List Char → List Piece
  | 0, cs => cs.map Piece.lit
  | _ + 1, [] => []
  | fuel + 1, c :: rest =>
    if c = '$' ∧ rest.head? = some '\x7b' then
      match takeName rest.tail with
      | some (nm, tl) => Piece.tok1 nm :: scanGo fuel tl
      | none => Piece.lit c :: scanGo fuel rest
    else if c = '\x7b' ∧ rest.head? = some '$' then
      match takeName rest.tail with
      | some (nm, tl) => Piece.tok2 nm :: scanGo fuel tl
      | none => Piece.lit c :: scanGo fuel rest
    else Piece.lit c :: scanGo fuel rest

/-- Scan with sufficient fuel. -/
def scan (cs : List Char) : List Piece := scanGo cs.length cs

/-- The replacement performed by `substitute_placeholders.repl`:
`os.getenv(var, match.group(0))` — the variable's value if it is set,
else the original token text verbatim. -/
def renderPiece (env : Env) : Piece → List Char
  | Piece.lit c => [c]
  | Piece.tok1 nm =>
    match env (String.mk nm) with
    | some v => v.data
    | none => '$' :: '\x7b' :: (nm ++ ['\x7d'])
  | Piece.tok2 nm =>
    match env (String.mk nm) with
    | some v => v.data
    | none => '\x7b' :: '$' :: (nm ++ ['\x7d'])

/-- `substitute_placeholders` on character lists. -/
def substituteChars (env : Env) (cs : List Char) : List Char :=
  (scan cs).foldr (fun p acc => renderPiece env p ++ acc) []

/-- `substitute_placeholders` (scripts2/configure.py lines 46-51). -/
def substitute_placeholders (env : Env) (s : String) : String :=
  String.mk (substituteChars env s.data)

/-- The captured group of one match: `match.group(1) or match.group(2)`. -/
def pieceVars : Piece → List String
  | Piece.lit _ => []
  | Piece.tok1 nm => [String.mk nm]
  | Piece.tok2 nm => [String.mk nm]

/-- All placeholder variable names of a string, in match order
(`PLACEHOLDER_PATTERN.finditer`). -/
def findVarsChars (cs : List Char) : List String :=
  (scan cs).foldr (fun p acc => pieceVars p ++ acc) []

/-- All placeholder variable names of a string. -/
def findVars (s : String) : List String := findVarsChars s.data

/-- Python `str.upper()` (ASCII, as used on network names). -/
def upperStr (s : String) : String := String.mk (s.data.map Char.toUpper)

/-- Python `str.startswith(pre)`. -/
def strStartsWith (s pre : String) : Bool := pre.data.isPrefixOf s.data

/-- Python `str.rstrip("/")`: remove every trailing slash. -/
def rstripSlash (s : String) : String :=
  String.mk ((s.data.reverse.dropWhile (fun c => c = '/')).reverse)

/-- The environment-scoped section of `config.yaml` that the engine
receives: its `services` and `networks` mappings (`config.get("services",
\x7b\x7d)` / `config.get("networks", \x7b\x7d)`). -/
structure ConfigDoc : Type where
  services : List (String × YFields)
  networks : List (String × YVal)

/-- `alchemy_key_for` (scripts2/configure.py lines 86-90): the
network-specific key if set and nonempty, else the generic key. -/
def alchemy_key_for (env : Env) (network : String) : Option String :=
  match env (upperStr network ++ "_ALCHEMY_API_KEY") with
  | some s => if s = "" then env "ALCHEMY_API_KEY" else some s
  | none => env "ALCHEMY_API_KEY"

/-- The raw URL template of a network entry:
`entry.get("url") if isinstance(entry, dict) else str(entry)`.
A mapping entry yields its `url` value (or Python `None` when absent);
any other entry is stringified. -/
def rawOf : YVal → YVal
  | YVal.dict ps => (yget? ps "url").getD YVal.null
  | e => YVal.s (pyStr e)

/-- The URL candidate for one network before the unresolved-placeholder
check (`build_networks` loop body, scripts2/configure.py lines 98-107):
substitution, then in production (for non-testnet networks) credential
lookup and path-segment append, dropping the network when no credential
is found. -/
def candidate_url (env : Env) (env_key name : String) (entry : YVal) : Option String :=
  let url0 := substitute_placeholders env (pyStr (rawOf entry))
  if strStartsWith env_key "prod" = true ∧ name ≠ "testnet" then
    match alchemy_key_for env name with
    | none => none
    | some k => if k = "" then none else some (rstripSlash url0 ++ "/" ++ k)
  else some url0

/-- One full iteration of the `build_networks` loop: the candidate is
dropped when it still contains both placeholder delimiters
(scripts2/configure.py lines 109-112). -/
def process_network (env : Env) (env_key name : String) (entry : YVal) : Option String :=
  match candidate_url env env_key name entry with
  | none => none
  | some url => if '\x7b' ∈ url.data ∧ '\x7d' ∈ url.data then none else some url

/-- The `build_networks` loop over all declared networks, accumulating
the `resolved` dict. -/
def build_loop (env : Env) (env_key : String) :
    List (String × YVal) → List (String × String) → List (String × String)
  | [], acc => acc
  | (name, entry) :: rest, acc =>
    match process_network env env_key name entry with
    | none => build_loop env env_key rest acc
    | some url => build_loop env env_key rest (dinsert acc name url)

/-- The hard-coded testnet fallback URL (scripts2/configure.py line 115). -/
def testnet_fallback (env_key : String) : String :=
  if strStartsWith env_key "dev" = true then "http://127.0.0.1:8545" else "http://anvil:8545"

/-- `build_networks` (scripts2/configure.py lines 93-117): resolve every
declared network, then synthesize the testnet fallback when the resolved
map has no truthy `testnet` value. -/
def build_networks (env : Env) (env_key : String) (cfg : ConfigDoc) : List (String × String) :=
  let resolved := build_loop env env_key cfg.networks []
  match aget? resolved "testnet" with
  | none => dinsert resolved "testnet" (testnet_fallback env_key)
  | some v => if v = "" then dinsert resolved "testnet" (testnet_fallback env_key) else resolved

/-- The placeholder names contributed by one network entry
(`extract_placeholder_vars` loop body, scripts2/configure.py lines 123-127). -/
def entry_vars (node : YVal) : List String :=
  findVars (pyStr (rawOf node))

/-- All placeholder names discovered across the `networks` section, in
scan order (the Python code accumulates them into a set). -/
def network_vars (cfg : ConfigDoc) : List String :=
  cfg.networks.foldl (fun acc p => acc ++ entry_vars p.2) []

/-- `extract_placeholder_vars` (scripts2/configure.py lines 120-128),
as the set it returns. -/
def extract_placeholder_vars (cfg : ConfigDoc) : Finset String :=
  (network_vars cfg).toFinset

/-- The required-key set of `check_required_keys`
(scripts2/configure.py lines 131-136): fixed baseline, plus
`ALCHEMY_API_KEY` in production, plus every discovered placeholder name. -/
def required_key_set (env_key : String) (cfg : ConfigDoc) : Finset String :=
  ({"ANTHROPIC_API_KEY", "BRAVE_SEARCH_API_KEY", "ETHERSCAN_API_KEY"} : Finset String)
    ∪ (if strStartsWith env_key "prod" = true then {"ALCHEMY_API_KEY"} else ∅)
    ∪ extract_placeholder_vars cfg

/-- `ConfigLoader.get_service_config` (scripts/load_config.py lines 112-114):
`services.get(service_name, \x7b\x7d).get(key, default)`. -/
def get_service_config (services : List (String × YFields))
    (service_name key : String) (dflt : YVal) : YVal :=
  (yget? ((aget? services service_name).getD YFields.nil) key).getD dflt

/-- Default host per environment (`export_ports_only`, lines 67-76). -/
def default_host (envName : String) : String :=
  if envName = "production" then "0.0.0.0" else "127.0.0.1"

/-- Default MCP server port per environment. -/
def default_mcp_port (envName : String) : Int :=
  if envName = "production" then 5001 else 5000

/-- Default backend port per environment. -/
def default_backend_port (envName : String) : Int :=
  if envName = "production" then 8081 else 8080

/-- Default frontend port per environment. -/
def default_frontend_port (envName : String) : Int :=
  if envName = "production" then 3001 else 3000

/-- The `configs` mapping built by `ConfigLoader.export_ports_only`
(scripts/load_config.py lines 79-88): the eight canonical service keys,
each resolved from the document with the environment default as fallback. -/
def export_ports_only_configs (envName : String)
    (services : List (String × YFields)) : List (String × YVal) :=
  [ ("MCP_SERVER_HOST", get_service_config services "mcp_server" "host" (YVal.s (default_host envName))),
    ("MCP_SERVER_PORT", get_service_config services "mcp_server" "port" (YVal.i (default_mcp_port envName))),
    ("BACKEND_HOST", get_service_config services "backend" "host" (YVal.s (default_host envName))),
    ("BACKEND_PORT", get_service_config services "backend" "port" (YVal.i (default_backend_port envName))),
    ("FRONTEND_HOST", get_service_config services "frontend" "host"
      (YVal.s (if envName = "development" then "localhost" else default_host envName))),
    ("FRONTEND_PORT", get_service_config services "frontend" "port" (YVal.i (default_frontend_port envName))),
    ("ANVIL_HOST", get_service_config services "anvil" "host" (YVal.s "127.0.0.1")),
    ("ANVIL_PORT", get_service_config services "anvil" "port" (YVal.i 8545)) ]

/-! Concrete instances used to exercise the theorems below. -/

/-- A snapshot with one Alchemy credential set. -/
def envFoo : Env := fun v => if v = "FOO_ALCHEMY_API_KEY" then some "abc123" else none

/-- A snapshot with one ordinary variable set. -/
def envHome : Env := fun v => if v = "HOME" then some "/root" else none

/-- The document of the spec's required-key discovery example:
`networks: \x7bcustom: \x7burl: "$\x7bMY_SECRET\x7d/x"\x7d\x7d`. -/
def exampleDoc : ConfigDoc :=
  ⟨[], [("custom", YVal.dict (YFields.cons "url" (YVal.s "$\x7bMY_SECRET\x7d/x") YFields.nil))]⟩

/-- A production document with a single credential-needing network. -/
def fooDoc : ConfigDoc := ⟨[], [("foo", YVal.s "https://foo.example/")]⟩

/-- The empty configuration document. -/
def emptyDoc : ConfigDoc := ⟨[], []⟩

/-- A document whose testnet entry resolves to the empty string. -/
def testnetEmptyDoc : ConfigDoc := ⟨[], [("testnet", YVal.s "")]⟩

/-- A document with one mapping-valued network entry lacking `url`. -/
def noUrlDoc : ConfigDoc := ⟨[], [("custom", YVal.dict YFields.nil)]⟩

/-- A network entry that is neither a string nor a mapping: a YAML list
containing a template string. -/
def badListEntry : YVal := YVal.list (YList.cons (YVal.s "$\x7bX\x7d") YList.nil)

/-- Whether an entry is a string or a mapping (the two shapes the spec's
discovery contract distinguishes). -/
def isStrOrDict : YVal → Bool
  | YVal.s _ => true
  | YVal.dict _ => true
  | _ => false

/-! Lemmas about the association-list operations. -/

theorem aget?_dinsert {α : Type} (m : List (String × α)) (k : String) (v : α) (n : String) :
    aget? (dinsert m k v) n = if n = k then some v else aget? m n := by
  induction m with
  | nil =>
    by_cases h : n = k
    · subst h; simp [dinsert, aget?]
    · simp [dinsert, aget?, h, Ne.symm h]
  | cons p rest ih =>
    obtain ⟨k', v'⟩ := p
    by_cases hk : k' = k
    · subst hk
      by_cases hn : n = k'
      · subst hn; simp [dinsert, aget?]
      · simp [dinsert, aget?, hn, Ne.symm hn]
    · simp only [dinsert, if_neg hk, aget?, ih]
      by_cases hn : k' = n
      · subst hn
        have hnk : ¬ k' = k := hk
        simp [hnk]
      · simp [hn]

/-! Lemmas about the regex scanner. -/

theorem dropWhile_ne_head :
    ∀ {l : List Char} {c : Char} {tl : List Char},
      l.dropWhile (fun ch => ch != '\x7d') = c :: tl → c = '\x7d' := by
  intro l
  induction l with
  | nil => intro c tl h; simp [List.dropWhile] at h
  | cons a l ih =>
    intro c tl h
    rw [List.dropWhile_cons] at h
    by_cases hp : (a != '\x7d') = true
    · rw [if_pos hp] at h; exact ih h
    · rw [if_neg hp] at h
      obtain ⟨rfl, -⟩ := List.cons.inj h
      simpa [bne_iff_ne] using hp

theorem takeName_eq_some {cs nm tl} (h : takeName cs = some (nm, tl)) :
    cs = nm ++ '\x7d' :: tl ∧ nm ≠ [] ∧ ∀ c ∈ nm, c ≠ '\x7d' := by
  unfold takeName at h
  by_cases hemp : (cs.takeWhile (fun c => c != '\x7d')).isEmpty
  · simp [hemp] at h
  · rw [if_neg hemp] at h
    rcases hdrop : cs.dropWhile (fun c => c != '\x7d') with _ | ⟨c, tl'⟩ <;> rw [hdrop] at h
    · simp at h
    · simp only [Option.some.injEq, Prod.mk.injEq] at h
      obtain ⟨rfl, rfl⟩ := h
      have hc7 : c = '\x7d' := dropWhile_ne_head hdrop
      subst hc7
      refine ⟨?_, ?_, ?_⟩
      · conv_lhs => rw [← List.takeWhile_append_dropWhile (p := fun c => c != '\x7d') (l := cs)]
        rw [hdrop]
      · intro hnil
        simp [List.isEmpty_iff, hnil] at hemp
      · intro c hc
        have := List.mem_takeWhile_imp hc
        simpa [bne_iff_ne] using this

theorem takeWhile_eq_of_append {nm tl : List Char} (h2 : ∀ c ∈ nm, c ≠ '\x7d') :
    (nm ++ '\x7d' :: tl).takeWhile (fun c => c != '\x7d') = nm := by
  induction nm with
  | nil => simp [List.takeWhile_cons]
  | cons a nm ih =>
    have ha : a ≠ '\x7d' := h2 a (by simp)
    simp only [List.cons_append, List.takeWhile_cons]
    rw [if_pos (by simpa [bne_iff_ne] using ha)]
    rw [ih (fun c hc => h2 c (by simp [hc]))]

theorem dropWhile_eq_of_append {nm tl : List Char} (h2 : ∀ c ∈ nm, c ≠ '\x7d') :
    (nm ++ '\x7d' :: tl).dropWhile (fun c => c != '\x7d') = '\x7d' :: tl := by
  induction nm with
  | nil => simp [List.dropWhile_cons]
  | cons a nm ih =>
    have ha : a ≠ '\x7d' := h2 a (by simp)
    simp only [List.cons_append, List.dropWhile_cons]
    rw [if_pos (by simpa [bne_iff_ne] using ha)]
    exact ih (fun c hc => h2 c (by simp [hc]))

theorem takeName_append {nm tl : List Char} (h1 : nm ≠ []) (h2 : ∀ c ∈ nm, c ≠ '\x7d') :
    takeName (nm ++ '\x7d' :: tl) = some (nm, tl) := by
  unfold takeName
  rw [takeWhile_eq_of_append h2, dropWhile_eq_of_append h2]
  simp [List.isEmpty_iff, h1]

theorem takeName_length {cs nm tl} (h : takeName cs = some (nm, tl)) :
    tl.length + 2 ≤ cs.length := by
  obtain ⟨hcs, hnm, -⟩ := takeName_eq_some h
  subst hcs
  have : 1 ≤ nm.length := by
    cases nm with
    | nil => exact absurd rfl hnm
    | cons a l => simp
  simp [List.length_append]
  omega

theorem scanGo_fuel (fuel : Nat) :
    ∀ cs : List Char, cs.length ≤ fuel → scanGo fuel cs = scan cs := by
  induction fuel using Nat.strong_induction_on with
  | _ fuel ih =>
    intro cs h
    cases cs with
    | nil => cases fuel <;> rfl
    | cons c rest =>
      cases fuel with
      | zero => simp at h
      | succ f =>
        have hr : rest.length ≤ f := by simpa using h
        have hlt1 : f < f + 1 := Nat.lt_succ_self f
        have hlt2 : rest.length < f + 1 := by omega
        show scanGo (f + 1) (c :: rest) = scanGo (rest.length + 1) (c :: rest)
        by_cases h1 : c = '$' ∧ rest.head? = some '\x7b'
        · rw [scanGo, scanGo, if_pos h1, if_pos h1]
          rcases htn : takeName rest.tail with _ | ⟨nm, tl⟩
          · dsimp only
            rw [ih f hlt1 rest hr, ih rest.length hlt2 rest le_rfl]
          · have hlen : rest.tail.length ≤ rest.length := by
              cases rest <;> simp
            have h2 := takeName_length htn
            dsimp only
            rw [ih f hlt1 tl (by omega), ih rest.length hlt2 tl (by omega)]
        · by_cases h2 : c = '\x7b' ∧ rest.head? = some '$'
          · rw [scanGo, scanGo, if_neg h1, if_neg h1, if_pos h2, if_pos h2]
            rcases htn : takeName rest.tail with _ | ⟨nm, tl⟩
            · dsimp only
              rw [ih f hlt1 rest hr, ih rest.length hlt2 rest le_rfl]
            · have hlen : rest.tail.length ≤ rest.length := by
                cases rest <;> simp
              have h3 := takeName_length htn
              dsimp only
              rw [ih f hlt1 tl (by omega), ih rest.length hlt2 tl (by omega)]
          · rw [scanGo, scanGo, if_neg h1, if_neg h1, if_neg h2, if_neg h2,
              ih f hlt1 rest hr, ih rest.length hlt2 rest le_rfl]

theorem scan_nil : scan [] = [] := rfl

theorem scan_lit (c : Char) (rest : List Char)
    (h1 : ¬(c = '$' ∧ rest.head? = some '\x7b'))
    (h2 : ¬(c = '\x7b' ∧ rest.head? = some '$')) :
    scan (c :: rest) = Piece.lit c :: scan rest := by
  show scanGo (rest.length + 1) (c :: rest) = _
  rw [scanGo, if_neg h1, if_neg h2, scanGo_fuel rest.length rest le_rfl]

theorem scan_tok1 (nm rest : List Char) (h1 : nm ≠ []) (h2 : ∀ c ∈ nm, c ≠ '\x7d') :
    scan ('$' :: '\x7b' :: (nm ++ '\x7d' :: rest)) = Piece.tok1 nm :: scan rest := by
  show scanGo (('\x7b' :: (nm ++ '\x7d' :: rest)).length + 1) _ = _
  rw [scanGo, if_pos (by simp)]
  have htail : ('\x7b' :: (nm ++ '\x7d' :: rest)).tail = nm ++ '\x7d' :: rest := rfl
  rw [htail, takeName_append h1 h2]
  dsimp only
  rw [scanGo_fuel _ rest (by simp [List.length_append]; omega)]

theorem scan_tok2 (nm rest : List Char) (h1 : nm ≠ []) (h2 : ∀ c ∈ nm, c ≠ '\x7d') :
    scan ('\x7b' :: '$' :: (nm ++ '\x7d' :: rest)) = Piece.tok2 nm :: scan rest := by
  show scanGo (('$' :: (nm ++ '\x7d' :: rest)).length + 1) _ = _
  rw [scanGo, if_neg (by simp), if_pos (by simp)]
  have htail : ('$' :: (nm ++ '\x7d' :: rest)).tail = nm ++ '\x7d' :: rest := rfl
  rw [htail, takeName_append h1 h2]
  dsimp only
  rw [scanGo_fuel _ rest (by simp [List.length_append]; omega)]

/-! Unfolding equations for the substitution function. -/

theorem substituteChars_nil (env : Env) : substituteChars env [] = [] := rfl

theorem substituteChars_tok1 (env : Env) (nm rest : List Char)
    (h1 : nm ≠ []) (h2 : ∀ c ∈ nm, c ≠ '\x7d') :
    substituteChars env ('$' :: '\x7b' :: (nm ++ '\x7d' :: rest)) =
      renderPiece env (Piece.tok1 nm) ++ substituteChars env rest := by
  unfold substituteChars
  rw [scan_tok1 nm rest h1 h2]
  rfl

theorem substituteChars_tok2 (env : Env) (nm rest : List Char)
    (h1 : nm ≠ []) (h2 : ∀ c ∈ nm, c ≠ '\x7d') :
    substituteChars env ('\x7b' :: '$' :: (nm ++ '\x7d' :: rest)) =
      renderPiece env (Piece.tok2 nm) ++ substituteChars env rest := by
  unfold substituteChars
  rw [scan_tok2 nm rest h1 h2]
  rfl

theorem substituteChars_lit (env : Env) (c : Char) (rest : List Char)
    (h1 : ¬(c = '$' ∧ rest.head? = some '\x7b'))
    (h2 : ¬(c = '\x7b' ∧ rest.head? = some '$')) :
    substituteChars env (c :: rest) = c :: substituteChars env rest := by
  unfold substituteChars
  rw [scan_lit c rest h1 h2]
  rfl

/-! A string without an opening delimiter scans to pure literals, so it
contributes no placeholder names. -/

theorem scan_no_open : ∀ cs : List Char, '\x7b' ∉ cs → scan cs = cs.map Piece.lit := by
  have key : ∀ (fuel : Nat) (cs : List Char), cs.length ≤ fuel → '\x7b' ∉ cs →
      scanGo fuel cs = cs.map Piece.lit := by
    intro fuel
    induction fuel with
    | zero => intro cs _ _; rfl
    | succ f ih =>
      intro cs h hnb
      cases cs with
      | nil => rfl
      | cons c rest =>
        have hc : c ≠ '\x7b' := by
          intro hh; exact hnb (by simp [hh])
        have hrest : '\x7b' ∉ rest := by
          intro hh; exact hnb (by simp [hh])
        have h1 : ¬(c = '$' ∧ rest.head? = some '\x7b') := by
          rintro ⟨-, hh⟩
          cases rest with
          | nil => simp at hh
          | cons r rs =>
            simp only [List.head?_cons, Option.some.injEq] at hh
            exact hrest (by simp [hh])
        have h2 : ¬(c = '\x7b' ∧ rest.head? = some '$') := by
          rintro ⟨hh, -⟩; exact hc hh
        rw [scanGo, if_neg h1, if_neg h2, ih rest (by simpa using h) hrest]
        rfl
  intro cs h
  exact key cs.length cs le_rfl h

theorem findVarsChars_no_open (cs : List Char) (h : '\x7b' ∉ cs) : findVarsChars cs = [] := by
  unfold findVarsChars
  rw [scan_no_open cs h]
  induction cs with
  | nil => rfl
  | cons c rest ih =>
    have hrest : '\x7b' ∉ rest := by
      intro hh; exact h (by simp [hh])
    simpa [pieceVars] using ih hrest

theorem substituteChars_no_open (env : Env) (cs : List Char) (h : '\x7b' ∉ cs) :
    substituteChars env cs = cs := by
  unfold substituteChars
  rw [scan_no_open cs h]
  induction cs with
  | nil => rfl
  | cons c rest ih =>
    have hrest : '\x7b' ∉ rest := by
      intro hh; exact h (by simp [hh])
    simpa [renderPiece] using ih hrest

/-! Lookup lemmas for the `build_networks` loop. -/

theorem build_loop_get_notmem (env : Env) (env_key : String) :
    ∀ (nets : List (String × YVal)) (acc : List (String × String)) (name : String),
      name ∉ nets.map Prod.fst →
      aget? (build_loop env env_key nets acc) name = aget? acc name := by
  intro nets
  induction nets with
  | nil => intro acc name _; rfl
  | cons p rest ih =>
    intro acc name hmem
    obtain ⟨n', e'⟩ := p
    have hne : name ≠ n' := by
      intro hh; exact hmem (by simp [hh])
    have hrest : name ∉ rest.map Prod.fst := by
      intro hh; exact hmem (by simp [hh])
    rw [build_loop]
    rcases hp : process_network env env_key n' e' with _ | u
    · exact ih acc name hrest
    · rw [ih (dinsert acc n' u) name hrest, aget?_dinsert, if_neg hne]

theorem build_loop_get_some (env : Env) (env_key : String) :
    ∀ (nets : List (String × YVal)) (acc : List (String × String)) (name : String)
      (entry : YVal) (u : String),
      (nets.map Prod.fst).Nodup →
      aget? nets name = some entry →
      process_network env env_key name entry = some u →
      aget? (build_loop env env_key nets acc) name = some u := by
  intro nets
  induction nets with
  | nil => intro acc name entry u _ h _; simp [aget?] at h
  | cons p rest ih =>
    intro acc name entry u hnd hget hp
    obtain ⟨n', e'⟩ := p
    simp only [List.map_cons, List.nodup_cons] at hnd
    by_cases hn : n' = name
    · subst hn
      rw [aget?, if_pos rfl] at hget
      obtain rfl : e' = entry := by simpa using hget
      rw [build_loop, hp,
        build_loop_get_notmem env env_key rest (dinsert acc n' u) n' hnd.1,
        aget?_dinsert, if_pos rfl]
    · rw [aget?, if_neg hn] at hget
      rw [build_loop]
      rcases hp' : process_network env env_key n' e' with _ | u'
      · exact ih acc name entry u hnd.2 hget hp
      · exact ih (dinsert acc n' u') name entry u hnd.2 hget hp

theorem build_loop_get_none (env : Env) (env_key : String) :
    ∀ (nets : List (String × YVal)) (acc : List (String × String)) (name : String)
      (entry : YVal),
      (nets.map Prod.fst).Nodup →
      aget? nets name = some entry →
      process_network env env_key name entry = none →
      aget? (build_loop env env_key nets acc) name = aget? acc name := by
  intro nets
  induction nets with
  | nil => intro acc name entry _ h _; simp [aget?] at h
  | cons p rest ih =>
    intro acc name entry hnd hget hp
    obtain ⟨n', e'⟩ := p
    simp only [List.map_cons, List.nodup_cons] at hnd
    by_cases hn : n' = name
    · subst hn
      rw [aget?, if_pos rfl] at hget
      obtain rfl : e' = entry := by simpa using hget
      rw [build_loop, hp]
      exact build_loop_get_notmem env env_key rest acc n' hnd.1
    · rw [aget?, if_neg hn] at hget
      rw [build_loop]
      rcases hp' : process_network env env_key n' e' with _ | u'
      · exact ih acc name entry hnd.2 hget hp
      · rw [ih (dinsert acc n' u') name entry hnd.2 hget hp,
          aget?_dinsert, if_neg (fun hh => hn hh.symm)]

theorem build_loop_preserve (env : Env) (env_key : String) (P : String → Prop)
    (hproc : ∀ n e u, process_network env env_key n e = some u → P u) :
    ∀ (nets : List (String × YVal)) (acc : List (String × String)),
      (∀ n u, aget? acc n = some u → P u) →
      ∀ n u, aget? (build_loop env env_key nets acc) n = some u → P u := by
  intro nets
  induction nets with
  | nil => intro acc hacc n u h; exact hacc n u h
  | cons p rest ih =>
    intro acc hacc n u h
    obtain ⟨n', e'⟩ := p
    rw [build_loop] at h
    rcases hp : process_network env env_key n' e' with _ | u' <;> rw [hp] at h
    · exact ih acc hacc n u h
    · refine ih (dinsert acc n' u') ?_ n u h
      intro m w hm
      rw [aget?_dinsert] at hm
      by_cases hmn : m = n'
      · rw [if_pos hmn] at hm
        obtain rfl := Option.some.inj hm
        exact hproc n' e' u' hp
      · rw [if_neg hmn] at hm
        exact hacc m w hm

/-! Lookup lemmas for `build_networks` (the testnet fallback step). -/

theorem build_networks_get_ne (env : Env) (env_key : String) (cfg : ConfigDoc)
    (name : String) (hname : name ≠ "testnet") :
    aget? (build_networks env env_key cfg) name =
      aget? (build_loop env env_key cfg.networks []) name := by
  unfold build_networks
  dsimp only
  rcases h : aget? (build_loop env env_key cfg.networks []) "testnet" with _ | v
  · dsimp only
    rw [aget?_dinsert, if_neg hname]
  · dsimp only
    by_cases hv : v = ""
    · rw [if_pos hv, aget?_dinsert, if_neg hname]
    · rw [if_neg hv]

theorem build_networks_get_testnet_some (env : Env) (env_key : String) (cfg : ConfigDoc)
    (u : String) (h : aget? (build_loop env env_key cfg.networks []) "testnet" = some u)
    (hu : u ≠ "") :
    aget? (build_networks env env_key cfg) "testnet" = some u := by
  unfold build_networks
  dsimp only
  rw [h]
  dsimp only
  rw [if_neg hu, h]

theorem build_networks_get_testnet_fb (env : Env) (env_key : String) (cfg : ConfigDoc)
    (h : aget? (build_loop env env_key cfg.networks []) "testnet" = none ∨
      aget? (build_loop env env_key cfg.networks []) "testnet" = some "") :
    aget? (build_networks env env_key cfg) "testnet" = some (testnet_fallback env_key) := by
  unfold build_networks
  dsimp only
  rcases h with h | h
  · rw [h]
    dsimp only
    rw [aget?_dinsert, if_pos rfl]
  · rw [h]
    dsimp only
    rw [if_pos rfl, aget?_dinsert, if_pos rfl]

/-! Claims. -/

/-- Claim C2: for every environment and every document, the resolved
service configuration contains exactly the eight canonical keys, in
particular resolving the empty document yields exactly the environment
defaults table for development resp. production. -/
theorem claim_C2_service_config_keys :
    (∀ (envName : String) (services : List (String × YFields)),
      (export_ports_only_configs envName services).map Prod.fst =
        ["MCP_SERVER_HOST", "MCP_SERVER_PORT", "BACKEND_HOST", "BACKEND_PORT",
         "FRONTEND_HOST", "FRONTEND_PORT", "ANVIL_HOST", "ANVIL_PORT"])
    ∧ export_ports_only_configs "development" [] =
        [("MCP_SERVER_HOST", YVal.s "127.0.0.1"), ("MCP_SERVER_PORT", YVal.i 5000),
         ("BACKEND_HOST", YVal.s "127.0.0.1"), ("BACKEND_PORT", YVal.i 8080),
         ("FRONTEND_HOST", YVal.s "localhost"), ("FRONTEND_PORT", YVal.i 3000),
         ("ANVIL_HOST", YVal.s "127.0.0.1"), ("ANVIL_PORT", YVal.i 8545)]
    ∧ export_ports_only_configs "production" [] =
        [("MCP_SERVER_HOST", YVal.s "0.0.0.0"), ("MCP_SERVER_PORT", YVal.i 5001),
         ("BACKEND_HOST", YVal.s "0.0.0.0"), ("BACKEND_PORT", YVal.i 8081),
         ("FRONTEND_HOST", YVal.s "0.0.0.0"), ("FRONTEND_PORT", YVal.i 3001),
         ("ANVIL_HOST", YVal.s "127.0.0.1"), ("ANVIL_PORT", YVal.i 8545)] :=
  ⟨fun _ _ => rfl, rfl, rfl⟩

/-- Claim C6: the environment defaults are a pure function of the
environment — development yields host 127.0.0.1 with ports 5000/8080/3000
and frontend host `localhost`, production yields host 0.0.0.0 with ports
5001/8081/3001, anvil is fixed at 127.0.0.1:8545 in both — and these
defaults fill every service field the document omits. -/
theorem claim_C6_environment_defaults :
    (default_host "development" = "127.0.0.1" ∧ default_mcp_port "development" = 5000 ∧
     default_backend_port "development" = 8080 ∧ default_frontend_port "development" = 3000)
    ∧ (default_host "production" = "0.0.0.0" ∧ default_mcp_port "production" = 5001 ∧
       default_backend_port "production" = 8081 ∧ default_frontend_port "production" = 3001)
    ∧ (aget? (export_ports_only_configs "development" []) "FRONTEND_HOST" = some (YVal.s "localhost")
       ∧ aget? (export_ports_only_configs "production" []) "FRONTEND_HOST" = some (YVal.s "0.0.0.0"))
    ∧ (aget? (export_ports_only_configs "development" []) "ANVIL_HOST" = some (YVal.s "127.0.0.1")
       ∧ aget? (export_ports_only_configs "development" []) "ANVIL_PORT" = some (YVal.i 8545)
       ∧ aget? (export_ports_only_configs "production" []) "ANVIL_HOST" = some (YVal.s "127.0.0.1")
       ∧ aget? (export_ports_only_configs "production" []) "ANVIL_PORT" = some (YVal.i 8545))
    ∧ ∀ (services : List (String × YFields)) (svc fld : String) (d : YVal),
        yget? ((aget? services svc).getD YFields.nil) fld = none →
        get_service_config services svc fld d = d := by
  refine ⟨⟨rfl, rfl, rfl, rfl⟩, ⟨rfl, rfl, rfl, rfl⟩, ⟨rfl, rfl⟩, ⟨rfl, rfl, rfl, rfl⟩, ?_⟩
  intro services svc fld d h
  unfold get_service_config
  rw [h]
  rfl

/-- Witness for C6: a field omitted from the document resolves to the
supplied default. -/
theorem claim_C6_witness : get_service_config [] "backend" "port" (YVal.i 8080) = YVal.i 8080 :=
  claim_C6_environment_defaults.2.2.2.2 [] "backend" "port" (YVal.i 8080) rfl

/-- Claim C5: the placeholder resolver replaces every occurrence of
either token syntax with the variable's value when it is set, leaves the
original token text verbatim when it is unset, never fails, treats the
two syntaxes equivalently, and copies token-free text unchanged. -/
theorem claim_C5_placeholder_resolver (env : Env) (nm : List Char) (rest : List Char)
    (h1 : nm ≠ []) (h2 : '\x7d' ∉ nm) :
    (substituteChars env ('$' :: '\x7b' :: (nm ++ '\x7d' :: rest)) =
      (match env (String.mk nm) with
       | some v => v.data
       | none => '$' :: '\x7b' :: (nm ++ ['\x7d'])) ++ substituteChars env rest)
    ∧ (substituteChars env ('\x7b' :: '$' :: (nm ++ '\x7d' :: rest)) =
      (match env (String.mk nm) with
       | some v => v.data
       | none => '\x7b' :: '$' :: (nm ++ ['\x7d'])) ++ substituteChars env rest)
    ∧ ∀ pre : List Char, (∀ c ∈ pre, c ≠ '$' ∧ c ≠ '\x7b') →
        substituteChars env (pre ++ rest) = pre ++ substituteChars env rest := by
  have h2' : ∀ c ∈ nm, c ≠ '\x7d' := fun c hc hh => h2 (hh ▸ hc)
  refine ⟨?_, ?_, ?_⟩
  · rw [substituteChars_tok1 env nm rest h1 h2']
    rfl
  · rw [substituteChars_tok2 env nm rest h1 h2']
    rfl
  · intro pre
    induction pre with
    | nil => intro _; simp
    | cons c pre ih =>
      intro hpre
      have hc := hpre c (by simp)
      have hl1 : ¬(c = '$' ∧ (pre ++ rest).head? = some '\x7b') := fun hh => hc.1 hh.1
      have hl2 : ¬(c = '\x7b' ∧ (pre ++ rest).head? = some '$') := fun hh => hc.2 hh.1
      rw [List.cons_append, substituteChars_lit env c (pre ++ rest) hl1 hl2,
        ih (fun c' hc' => hpre c' (by simp [hc']))]
      simp

/-- Witness for C5: substituting `$\x7bHOME\x7d` with `HOME=/root` set. -/
theorem claim_C5_witness :
    substituteChars envHome ('$' :: '\x7b' :: (['H', 'O', 'M', 'E'] ++ '\x7d' :: [])) =
      "/root".data := by
  have h := (claim_C5_placeholder_resolver envHome ['H', 'O', 'M', 'E'] []
    (by decide) (by decide)).1
  rw [h]
  decide

/-- Claim C3: a `testnet` entry is always present in the resolved network
map; when none survives resolution the hard-coded fallback is used —
`http://127.0.0.1:8545` in development, `http://anvil:8545` in production
— and in development with no networks declared the map is exactly the
fallback singleton. -/
theorem claim_C3_testnet_always_present :
    (∀ (env : Env) (cfg : ConfigDoc),
      (aget? (build_loop env "development" cfg.networks []) "testnet" = none ∨
       aget? (build_loop env "development" cfg.networks []) "testnet" = some "") →
      aget? (build_networks env "development" cfg) "testnet" = some "http://127.0.0.1:8545")
    ∧ (∀ (env : Env) (cfg : ConfigDoc),
      (aget? (build_loop env "production" cfg.networks []) "testnet" = none ∨
       aget? (build_loop env "production" cfg.networks []) "testnet" = some "") →
      aget? (build_networks env "production" cfg) "testnet" = some "http://anvil:8545")
    ∧ (∀ env : Env, build_networks env "development" emptyDoc =
        [("testnet", "http://127.0.0.1:8545")])
    ∧ ∀ (env : Env) (env_key : String) (cfg : ConfigDoc),
        ∃ v, aget? (build_networks env env_key cfg) "testnet" = some v := by
  refine ⟨?_, ?_, fun env => rfl, ?_⟩
  · intro env cfg h
    rw [build_networks_get_testnet_fb env "development" cfg h]
    rfl
  · intro env cfg h
    rw [build_networks_get_testnet_fb env "production" cfg h]
    rfl
  · intro env env_key cfg
    rcases h : aget? (build_loop env env_key cfg.networks []) "testnet" with _ | v
    · exact ⟨_, build_networks_get_testnet_fb env env_key cfg (Or.inl h)⟩
    · by_cases hv : v = ""
      · subst hv
        exact ⟨_, build_networks_get_testnet_fb env env_key cfg (Or.inr h)⟩
      · exact ⟨v, build_networks_get_testnet_some env env_key cfg v h hv⟩

/-- Witness for C3: empty development document yields the fallback. -/
theorem claim_C3_witness :
    aget? (build_networks envHome "development" emptyDoc) "testnet" =
      some "http://127.0.0.1:8545" :=
  claim_C3_testnet_always_present.1 envHome emptyDoc (Or.inl rfl)

/-- Claim C10: the fallback guard tests falsiness, so it also fires when
the document's testnet entry resolved to the empty string; consequently
the resolved `testnet` value is never the empty string. -/
theorem claim_C10_testnet_never_empty :
    (∀ (env : Env) (env_key : String) (cfg : ConfigDoc),
      aget? (build_loop env env_key cfg.networks []) "testnet" = some "" →
      aget? (build_networks env env_key cfg) "testnet" = some (testnet_fallback env_key))
    ∧ ∀ (env : Env) (env_key : String) (cfg : ConfigDoc),
        ∃ v, aget? (build_networks env env_key cfg) "testnet" = some v ∧ v ≠ "" := by
  constructor
  · intro env env_key cfg h
    exact build_networks_get_testnet_fb env env_key cfg (Or.inr h)
  · intro env env_key cfg
    have hfb : testnet_fallback env_key ≠ "" := by
      unfold testnet_fallback
      split <;> decide
    rcases h : aget? (build_loop env env_key cfg.networks []) "testnet" with _ | v
    · exact ⟨_, build_networks_get_testnet_fb env env_key cfg (Or.inl h), hfb⟩
    · by_cases hv : v = ""
      · subst hv
        exact ⟨_, build_networks_get_testnet_fb env env_key cfg (Or.inr h), hfb⟩
      · exact ⟨v, build_networks_get_testnet_some env env_key cfg v h hv, hv⟩

/-- Witness for C10: a testnet entry resolving to the empty string is
overwritten by the fallback. -/
theorem claim_C10_witness :
    aget? (build_networks envHome "development" testnetEmptyDoc) "testnet" =
      some (testnet_fallback "development") :=
  claim_C10_testnet_never_empty.1 envHome "development" testnetEmptyDoc (by decide)

/-- Claim C4: no URL in the resolved network map still contains both an
opening and a closing placeholder delimiter — such candidates are dropped
without error before insertion. -/
theorem claim_C4_no_unresolved_placeholders :
    ∀ (env : Env) (env_key : String) (cfg : ConfigDoc) (name u : String),
      aget? (build_networks env env_key cfg) name = some u →
      ¬('\x7b' ∈ u.data ∧ '\x7d' ∈ u.data) := by
  intro env env_key cfg name u h
  have hproc : ∀ n e w, process_network env env_key n e = some w →
      ¬('\x7b' ∈ w.data ∧ '\x7d' ∈ w.data) := by
    intro n e w hp
    unfold process_network at hp
    rcases hc : candidate_url env env_key n e with _ | url <;> rw [hc] at hp
    · exact absurd hp (by simp)
    · dsimp only at hp
      by_cases hbr : '\x7b' ∈ url.data ∧ '\x7d' ∈ url.data
      · rw [if_pos hbr] at hp
        exact absurd hp (by simp)
      · rw [if_neg hbr] at hp
        obtain rfl := Option.some.inj hp
        exact hbr
  have hloop := build_loop_preserve env env_key
    (fun w => ¬('\x7b' ∈ w.data ∧ '\x7d' ∈ w.data)) hproc cfg.networks []
    (by intro n w hn; simp [aget?] at hn)
  have hfb : ¬('\x7b' ∈ (testnet_fallback env_key).data ∧
      '\x7d' ∈ (testnet_fallback env_key).data) := by
    unfold testnet_fallback
    split <;> decide
  by_cases hname : name = "testnet"
  · subst hname
    unfold build_networks at h
    dsimp only at h
    rcases htn : aget? (build_loop env env_key cfg.networks []) "testnet" with _ | v <;>
      rw [htn] at h
    · dsimp only at h
      rw [aget?_dinsert, if_pos rfl] at h
      obtain rfl := Option.some.inj h
      exact hfb
    · dsimp only at h
      by_cases hv : v = ""
      · rw [if_pos hv, aget?_dinsert, if_pos rfl] at h
        obtain rfl := Option.some.inj h
        exact hfb
      · rw [if_neg hv, htn] at h
        obtain rfl := Option.some.inj h
        exact hloop "testnet" v htn
  · rw [build_networks_get_ne env env_key cfg name hname] at h
    exact hloop name u h

/-- Witness for C4: the resolved development fallback URL has no
placeholder delimiters. -/
theorem claim_C4_witness :
    ¬('\x7b' ∈ "http://127.0.0.1:8545".data ∧ '\x7d' ∈ "http://127.0.0.1:8545".data) :=
  claim_C4_no_unresolved_placeholders envHome "development" emptyDoc "testnet"
    "http://127.0.0.1:8545" rfl

/-- Claim C9: in development, a network entry that is a mapping without a
`url` key is not dropped — its missing field is stringified to `None` and
the network is resolved with the literal URL `None`. -/
theorem claim_C9_missing_url_becomes_None (env : Env) (cfg : ConfigDoc)
    (name : String) (ps : YFields)
    (hnd : (cfg.networks.map Prod.fst).Nodup)
    (hentry : aget? cfg.networks name = some (YVal.dict ps))
    (hnourl : yget? ps "url" = none) :
    aget? (build_networks env "development" cfg) name = some "None" := by
  have hraw : rawOf (YVal.dict ps) = YVal.null := by
    show (yget? ps "url").getD YVal.null = YVal.null
    rw [hnourl]
    rfl
  have hsub : substitute_placeholders env "None" = "None" := by
    unfold substitute_placeholders
    rw [substituteChars_no_open env "None".data (by decide)]
  have hcand : candidate_url env "development" name (YVal.dict ps) = some "None" := by
    unfold candidate_url
    dsimp only
    rw [if_neg (fun hh => absurd hh.1 (by decide)), hraw]
    show some (substitute_placeholders env "None") = some "None"
    rw [hsub]
  have hproc : process_network env "development" name (YVal.dict ps) = some "None" := by
    unfold process_network
    rw [hcand]
    dsimp only
    rw [if_neg (by decide)]
  by_cases hname : name = "testnet"
  · subst hname
    have hl := build_loop_get_some env "development" cfg.networks [] "testnet"
      (YVal.dict ps) "None" hnd hentry hproc
    exact build_networks_get_testnet_some env "development" cfg "None" hl (by decide)
  · rw [build_networks_get_ne env "development" cfg name hname]
    exact build_loop_get_some env "development" cfg.networks [] name
      (YVal.dict ps) "None" hnd hentry hproc

/-- Witness for C9: a url-less mapping entry resolves to `None`. -/
theorem claim_C9_witness :
    aget? (build_networks envHome "development" noUrlDoc) "custom" = some "None" :=
  claim_C9_missing_url_becomes_None envHome noUrlDoc "custom" YFields.nil
    (by decide) rfl rfl

/-- Claim C1: in production, a non-testnet network is included only if an
Alchemy credential is found — the network-specific key is consulted
first, then the generic one — the network is dropped entirely when
neither yields a credential, and an included URL is exactly the
substituted URL with trailing slashes stripped, then `/`, then the
credential. -/
theorem claim_C1_production_credential_injection (env : Env) (env_key : String)
    (cfg : ConfigDoc) (name : String) (entry : YVal)
    (hprod : strStartsWith env_key "prod" = true) (hname : name ≠ "testnet")
    (hnd : (cfg.networks.map Prod.fst).Nodup)
    (hentry : aget? cfg.networks name = some entry) :
    (alchemy_key_for env name = none →
      aget? (build_networks env env_key cfg) name = none)
    ∧ (alchemy_key_for env name = some "" →
      aget? (build_networks env env_key cfg) name = none)
    ∧ (∀ k u, alchemy_key_for env name = some k → k ≠ "" →
        aget? (build_networks env env_key cfg) name = some u →
        u = rstripSlash (substitute_placeholders env (pyStr (rawOf entry))) ++ "/" ++ k)
    ∧ (∀ cred, env (upperStr name ++ "_ALCHEMY_API_KEY") = some cred → cred ≠ "" →
        alchemy_key_for env name = some cred)
    ∧ (env (upperStr name ++ "_ALCHEMY_API_KEY") = none →
        alchemy_key_for env name = env "ALCHEMY_API_KEY") := by
  have hcond : strStartsWith env_key "prod" = true ∧ name ≠ "testnet" := ⟨hprod, hname⟩
  refine ⟨?_, ?_, ?_, ?_, ?_⟩
  · intro halch
    have hcand : candidate_url env env_key name entry = none := by
      unfold candidate_url
      dsimp only
      rw [if_pos hcond, halch]
    have hproc : process_network env env_key name entry = none := by
      unfold process_network
      rw [hcand]
    rw [build_networks_get_ne env env_key cfg name hname,
      build_loop_get_none env env_key cfg.networks [] name entry hnd hentry hproc]
    rfl
  · intro halch
    have hcand : candidate_url env env_key name entry = none := by
      unfold candidate_url
      dsimp only
      rw [if_pos hcond, halch]
      dsimp only
      rw [if_pos rfl]
    have hproc : process_network env env_key name entry = none := by
      unfold process_network
      rw [hcand]
    rw [build_networks_get_ne env env_key cfg name hname,
      build_loop_get_none env env_key cfg.networks [] name entry hnd hentry hproc]
    rfl
  · intro k u halch hk hlookup
    have hcand : candidate_url env env_key name entry =
        some (rstripSlash (substitute_placeholders env (pyStr (rawOf entry))) ++ "/" ++ k) := by
      unfold candidate_url
      dsimp only
      rw [if_pos hcond, halch]
      dsimp only
      rw [if_neg hk]
    rw [build_networks_get_ne env env_key cfg name hname] at hlookup
    by_cases hbr : '\x7b' ∈ (rstripSlash (substitute_placeholders env (pyStr (rawOf entry)))
        ++ "/" ++ k).data ∧ '\x7d' ∈ (rstripSlash (substitute_placeholders env
        (pyStr (rawOf entry))) ++ "/" ++ k).data
    · have hproc : process_network env env_key name entry = none := by
        unfold process_network
        rw [hcand]
        dsimp only
        rw [if_pos hbr]
      rw [build_loop_get_none env env_key cfg.networks [] name entry hnd hentry hproc] at hlookup
      exact absurd hlookup (by simp [aget?])
    · have hproc : process_network env env_key name entry =
          some (rstripSlash (substitute_placeholders env (pyStr (rawOf entry))) ++ "/" ++ k) := by
        unfold process_network
        rw [hcand]
        dsimp only
        rw [if_neg hbr]
      rw [build_loop_get_some env env_key cfg.networks [] name entry _ hnd hentry hproc]
        at hlookup
      exact (Option.some.inj hlookup).symm
  · intro cred hcred hcne
    unfold alchemy_key_for
    rw [hcred]
    dsimp only
    rw [if_neg hcne]
  · intro h0
    unfold alchemy_key_for
    rw [h0]

/-- Witness for C1: `FOO_ALCHEMY_API_KEY=abc123` joins the substituted
base URL with a single slash. -/
theorem claim_C1_witness :
    "https://foo.example/abc123" =
      rstripSlash (substitute_placeholders envFoo (pyStr (rawOf (YVal.s "https://foo.example/"))))
        ++ "/" ++ "abc123" :=
  (claim_C1_production_credential_injection envFoo "production" fooDoc "foo"
    (YVal.s "https://foo.example/") (by decide) (by decide) (by decide) rfl).2.2.1
    "abc123" "https://foo.example/abc123" (by decide) (by decide) (by decide)

/-- Claim C7: the required-key set is the union of the fixed baseline
(`ANTHROPIC_API_KEY`, `BRAVE_SEARCH_API_KEY`, `ETHERSCAN_API_KEY`), plus
`ALCHEMY_API_KEY` exactly in production, plus the placeholder names
discovered in network URL fields; on the example document with the single
network `custom: \x7burl: $\x7bMY_SECRET\x7d/x\x7d` this gives four keys
in development and five in production. -/
theorem claim_C7_required_key_set :
    (∀ (env_key : String) (cfg : ConfigDoc) (k : String),
      env_key = "development" ∨ env_key = "production" →
      (k ∈ required_key_set env_key cfg ↔
        (k = "ANTHROPIC_API_KEY" ∨ k = "BRAVE_SEARCH_API_KEY" ∨ k = "ETHERSCAN_API_KEY" ∨
          (env_key = "production" ∧ k = "ALCHEMY_API_KEY") ∨ k ∈ network_vars cfg)))
    ∧ required_key_set "development" exampleDoc =
        {"ANTHROPIC_API_KEY", "BRAVE_SEARCH_API_KEY", "ETHERSCAN_API_KEY", "MY_SECRET"}
    ∧ (required_key_set "development" exampleDoc).card = 4
    ∧ required_key_set "production" exampleDoc =
        {"ANTHROPIC_API_KEY", "BRAVE_SEARCH_API_KEY", "ETHERSCAN_API_KEY",
         "ALCHEMY_API_KEY", "MY_SECRET"}
    ∧ (required_key_set "production" exampleDoc).card = 5 := by
  refine ⟨?_, by decide, by decide, by decide, by decide⟩
  intro env_key cfg k henv
  rcases henv with rfl | rfl
  · have h : strStartsWith "development" "prod" = false := by decide
    have hne : ¬ (("development" : String) = "production") := by decide
    simp [required_key_set, extract_placeholder_vars, h, hne, List.mem_toFinset]
  · have h : strStartsWith "production" "prod" = true := by decide
    simp [required_key_set, extract_placeholder_vars, h, List.mem_toFinset]

/-- Witness for C7: `MY_SECRET` is required in production on the example
document. -/
theorem claim_C7_witness : "MY_SECRET" ∈ required_key_set "production" exampleDoc := by
  have h := claim_C7_required_key_set.1 "production" exampleDoc "MY_SECRET" (Or.inr rfl)
  exact h.mpr (Or.inr (Or.inr (Or.inr (Or.inr (by decide)))))

/-- Counterexample to C8 as stated: a network entry that is a YAML list
containing the template string `$\x7bX\x7d` is neither a string nor a
mapping with a `url` key, yet Python stringifies it to `['$\x7bX\x7d']`
and discovery finds `X` in it. -/
theorem claim_C8_counterexample :
    isStrOrDict badListEntry = false ∧
    entry_vars badListEntry = ["X"] ∧
    extract_placeholder_vars ⟨[], [("custom", badListEntry)]⟩ = {"X"} := by
  refine ⟨rfl, by decide, by decide⟩

/-- Claim C8 (amended): discovery never fails; a mapping entry without a
`url` key contributes no names, and an entry that is neither a string nor
a mapping contributes no names provided its string rendering contains no
opening placeholder delimiter. -/
theorem claim_C8_malformed_entry_discovery :
    (∀ ps : YFields, yget? ps "url" = none → entry_vars (YVal.dict ps) = [])
    ∧ ∀ e : YVal, isStrOrDict e = false → '\x7b' ∉ (pyStr e).data → entry_vars e = [] := by
  constructor
  · intro ps h
    unfold entry_vars
    have hraw : rawOf (YVal.dict ps) = YVal.null := by
      show (yget? ps "url").getD YVal.null = YVal.null
      rw [h]
      rfl
    rw [hraw]
    decide
  · intro e he hnb
    unfold entry_vars
    have hraw : rawOf e = YVal.s (pyStr e) := by
      cases e with
      | s v => simp [isStrOrDict] at he
      | dict ps => simp [isStrOrDict] at he
      | i n => rfl
      | b v => rfl
      | null => rfl
      | list xs => rfl
    rw [hraw]
    show findVars (pyStr e) = []
    exact findVarsChars_no_open (pyStr e).data hnb

/-- Witness for the amended C8: an integer entry contributes no names. -/
theorem claim_C8_witness : entry_vars (YVal.i 7) = [] :=
  claim_C8_malformed_entry_discovery.2 (YVal.i 7) rfl (by decide)

end ProductMono
